import Mathlib

/-!
Verification of the anpa parser-combinator engine against its specification.

The engine is shallowly embedded: a cursor is a `List` of input items, the
parse state (`AnpaState`) couples the cursor with the caller-supplied user
state, and a parser is a total function from a state to an optional result
together with the updated state (the Rust code mutates the state in place;
here the state is threaded explicitly).  Unbounded `while`/`loop` constructs
of the source (`many_internal`, `chain`) are modelled with an explicit fuel
argument counting loop iterations: `none` from such a loop means the source
loop would still be running after that many iterations.  Machine integers of
the word-parallel byte search are modelled as `Nat` with explicit reduction
modulo `2 ^ 64` (the 64-bit configuration, `Work = usize`), and the numeric
parsers are modelled over exact `Int` arithmetic, with a separate
instrumented variant that reports the event of an arithmetic operation
leaving the machine range of the target type.
-/

namespace Anpa

universe u v w x

/-- The state being passed around during parsing (`core.rs`, `AnpaState`):
the current input under parse plus the provided user state. -/
structure AnpaState (α : Type u) (σ : Type v) : Type (max u v) where
  input : List α
  userState : σ
  deriving Repr, DecidableEq

/-- A parser (`core.rs`, trait `Parser`): a function from the parse state to
an optional output.  The Rust version mutates the state in place; the model
returns the updated state alongside the result. -/
def Parser (α : Type u) (σ : Type v) (β : Type w) : Type (max u v w) :=
  AnpaState α σ → Option β × AnpaState α σ

/-- `parsers.rs`, `success`: always succeeds with `()`, consuming nothing. -/
def successP : Parser α σ Unit := fun s => (some (), s)

/-- `combinators.rs` `pure!` macro: succeed with `x`, consuming nothing. -/
def pureP (x : β) : Parser α σ β := fun s => (some x, s)

/-- `parsers.rs`, `item_if`: consume the first item iff it satisfies `pred`. -/
def itemIf (pred : α → Bool) : Parser α σ α := fun s =>
  match s.input with
  | [] => (none, s)
  | c :: rest => if pred c then (some c, { s with input := rest }) else (none, s)

/-- `combinators.rs`, `bind`: `f(p(s)?)(s)`. -/
def bindP (p : Parser α σ β) (f : β → Parser α σ γ) : Parser α σ γ := fun s =>
  match p s with
  | (some r, s1) => f r s1
  | (none, s1) => (none, s1)

/-- `combinators.rs`, `map`: apply `f` to the result of `p`. -/
def mapP (p : Parser α σ β) (f : β → γ) : Parser α σ γ := fun s =>
  match p s with
  | (some r, s1) => (some (f r), s1)
  | (none, s1) => (none, s1)

/-- `combinators.rs`, `right`: sequence two parsers, keeping the second
result; `p2` runs only if `p1` succeeded. -/
def rightP (p1 : Parser α σ β) (p2 : Parser α σ γ) : Parser α σ γ := fun s =>
  match p1 s with
  | (some _, s1) => p2 s1
  | (none, s1) => (none, s1)

/-- `combinators.rs`, `peek`: run `p`, then unconditionally restore the
cursor (and only the cursor) to its value before the call. -/
def peekP (p : Parser α σ β) : Parser α σ β := fun s =>
  let pos := s.input
  let r := p s
  (r.1, { r.2 with input := pos })

/-- `combinators.rs`, `attempt`: run `p`; on failure only, restore the
cursor (and only the cursor) to its value before the call. -/
def attemptP (p : Parser α σ β) : Parser α σ β := fun s =>
  let pos := s.input
  let r := p s
  match r with
  | (none, s1) => (none, { s1 with input := pos })
  | _ => r

/-- `combinators.rs`, `internal_or!` with `allow_partial = true` (`or`):
save the cursor, try `p1`; on failure restore the saved cursor and try
`p2`, regardless of how much `p1` consumed. -/
def orP (p1 p2 : Parser α σ β) : Parser α σ β := fun s =>
  let pos := s.input
  match p1 s with
  | (some r, s1) => (some r, s1)
  | (none, s1) => p2 { s1 with input := pos }

/-- `combinators.rs`, `internal_or!` with `allow_partial = false`
(`or_no_partial`): like `or`, but if `p1` failed after the cursor length
changed, fail outright without running `p2` (and without restoring). -/
def orNoPartialP (p1 p2 : Parser α σ β) : Parser α σ β := fun s =>
  let pos := s.input
  match p1 s with
  | (some r, s1) => (some r, s1)
  | (none, s1) =>
    if s1.input.length ≠ pos.length then (none, s1)
    else p2 { s1 with input := pos }

/-- `combinators.rs`, `greedy_or`: run both alternatives from the same
starting cursor (the second from the state the first left, with the cursor
reset), then keep the result of the one that consumed the most, ties going
to `p1`; if exactly one succeeded, keep its result. -/
def greedyOr (p1 p2 : Parser α σ β) : Parser α σ β := fun s =>
  let pos := s.input
  let r1 := p1 s
  let p1Consumed := pos.length - r1.2.input.length
  let p1Pos := r1.2.input
  let r2 := p2 { r1.2 with input := pos }
  let p2Consumed := pos.length - r2.2.input.length
  let p1IsSome := r1.1.isSome
  let chooseP1 :=
    if p1IsSome = r2.1.isSome then decide (p1Consumed ≥ p2Consumed) else p1IsSome
  if chooseP1 then (r1.1, { r2.2 with input := p1Pos }) else r2

/-- Loop body of `combinators.rs` `times`: apply `p` the given number of
times, failing (with the state at the point of failure) on the first
failure. -/
def timesGo (p : Parser α σ β) : Nat → AnpaState α σ → Option Unit × AnpaState α σ
  | 0, s => (some (), s)
  | n + 1, s =>
    match p s with
    | (some _, s1) => timesGo p n s1
    | (none, s1) => (none, s1)

/-- `combinators.rs`, `times`: succeed iff `p` succeeds `n` times in a row,
returning the whole consumed span (`old_input.slice_to(old_len - new_len)`). -/
def timesP (n : Nat) (p : Parser α σ β) : Parser α σ (List α) := fun s =>
  let oldInput := s.input
  match timesGo p n s with
  | (some _, s1) => (some (oldInput.take (oldInput.length - s1.input.length)), s1)
  | (none, s1) => (none, s1)

/-- The `while let` loop of `combinators.rs` `many_internal`, with `fuel`
bounding the number of loop iterations (the Rust loop is unbounded; a
`none` result means the loop is still running after `fuel` iterations).
Each iteration: run `p`; on failure exit with the current flags and the
state `p` left; on success fold the result into `acc`, set
`successes := true`, clear `hasTrailingSep`, and, if a separator is
configured, run it — exiting on its failure, or looping with
`hasTrailingSep := true` on its success. -/
def manyLoop (p : Parser α σ β) (f : ρ → β → ρ) (sep : Option (Bool × Parser α σ γ)) :
    Nat → AnpaState α σ → ρ → Bool → Bool → Option (ρ × Bool × Bool × AnpaState α σ)
  | 0, _, _, _, _ => none
  | fuel + 1, s, acc, successes, hasTrailingSep =>
    match p s with
    | (none, s1) => some (acc, successes, hasTrailingSep, s1)
    | (some r, s1) =>
      let acc := f acc r
      match sep with
      | none => manyLoop p f sep fuel s1 acc true false
      | some (_, sp) =>
        match sp s1 with
        | (none, s2) => some (acc, true, false, s2)
        | (some _, s2) => manyLoop p f sep fuel s2 acc true true

/-- Exit predicate of `combinators.rs` `many_internal`:
`!separator.is_some_and(|(allow_trailing, _)| !allow_trailing && has_trailing_sep)
 && (allow_empty || successes)`. -/
def manyOk (sep : Option (Bool × Parser α σ γ)) (allowEmpty successes hasTrailingSep : Bool) :
    Bool :=
  !(match sep with
    | some (allowTrailing, _) => !allowTrailing && hasTrailingSep
    | none => false) && (allowEmpty || successes)

/-- `combinators.rs`, `many`: run the repetition loop discarding results,
then on acceptance return the consumed span
(`old_input.slice_to(old_len - new_len)`).  `fuel` bounds the loop
iterations (modelling artifact; see `manyLoop`). -/
def manyP (fuel : Nat) (p : Parser α σ β) (allowEmpty : Bool)
    (sep : Option (Bool × Parser α σ γ)) : Parser α σ (List α) := fun s =>
  match manyLoop p (fun _ _ => ()) sep fuel s () false false with
  | none => (none, s)
  | some (_, successes, hasTrailingSep, s1) =>
    (if manyOk sep allowEmpty successes hasTrailingSep then
       some (s.input.take (s.input.length - s1.input.length))
     else none, s1)

/-- `combinators.rs`, `fold`: run the repetition loop accumulating with `f`
from `init`, returning the accumulator on acceptance.  `fuel` bounds the
loop iterations (modelling artifact; see `manyLoop`). -/
def foldP (fuel : Nat) (p : Parser α σ β) (init : ρ) (f : ρ → β → ρ) (allowEmpty : Bool)
    (sep : Option (Bool × Parser α σ γ)) : Parser α σ ρ := fun s =>
  match manyLoop p f sep fuel s init false false with
  | none => (none, s)
  | some (acc, successes, hasTrailingSep, s1) =>
    (if manyOk sep allowEmpty successes hasTrailingSep then some acc else none, s1)

/-- The `loop` of `combinators.rs` `chain`, after the first `p` succeeded
with `res`: try `op`; if it yields a function, try `p` again; if that also
succeeds, fold and continue; as soon as either fails, stop and return the
accumulator (never a hard failure).  `fuel` bounds the loop iterations
(the Rust loop is unbounded; `none` means still running after `fuel`
iterations). -/
def chainLoop (p : Parser α σ β) (op : Parser α σ (β → β → β)) :
    Nat → β → AnpaState α σ → Option (Option β × AnpaState α σ)
  | 0, _, _ => none
  | fuel + 1, res, s =>
    match op s with
    | (some opF, s1) =>
      match p s1 with
      | (some res2, s2) => chainLoop p op fuel (opF res res2) s2
      | (none, s2) => some (some res, s2)
    | (none, s1) => some (some res, s1)

/-! ### The generic numeric-literal parser (`number.rs`)

The source is generic over a `NumLike` target exposing `MIN`/`MAX` and over
a `CharLike` input item; the model fixes input items to `Char`
(`as_char` is the identity) and describes the target type by its bounds.
The value-level model computes with exact `Int` arithmetic; the separate
`consumeM`/`integerInternalM` variant additionally reports when an
arithmetic operation on the accumulator leaves the machine range
`[T.min, T.max]` — the event that in Rust is an arithmetic overflow
(a panic in debug builds, a wrapped value in release builds). -/

/-- Bounds of a `number.rs` `NumLike` target type (`MIN`, `MAX`). -/
structure NumTy : Type where
  min : Int
  max : Int
  deriving Repr, DecidableEq

/-- The `i8` instance of `NumLike`. -/
def i8T : NumTy := ⟨-128, 127⟩

/-- The `u8` instance of `NumLike`. -/
def u8T : NumTy := ⟨0, 255⟩

/-- The `u32` instance of `NumLike`. -/
def u32T : NumTy := ⟨0, 2 ^ 32 - 1⟩

/-- The `isize` instance of `NumLike` (64-bit configuration). -/
def isizeT : NumTy := ⟨-(2 ^ 63), 2 ^ 63 - 1⟩

/-- The `usize` instance of `NumLike` (64-bit configuration). -/
def usizeT : NumTy := ⟨0, 2 ^ 64 - 1⟩

/-- Rust `char::to_digit(10)`: the value of an ASCII decimal digit. -/
def toDigit (c : Char) : Option Nat :=
  if c.isDigit then some (c.toNat - 48) else none

/-- Rust `Iterator::map_while`: map by `f`, stopping at the first `none`. -/
def mapWhile (f : α → Option γ) : List α → List γ
  | [] => []
  | a :: as_ =>
    match f a with
    | some b => b :: mapWhile f as_
    | none => []

/-- The `consume` closure of `number.rs` `integer_internal`, acting on the
captured mutable variables `(acc, idx, dec_divisor)`.  The mutated
variables are returned even when the closure returns `None` (in the source
they are captured by mutable reference, so e.g. the `acc = acc * ten`
assignment survives a failed bound check). -/
def consume (checked decDiv : Bool) (T : NumTy) (digit : Nat) (isNegative : Bool)
    (st : Int × Nat × Nat) : Option Unit × (Int × Nat × Nat) :=
  let (acc, idx, divisor) := st
  let d : Int := digit
  if checked && decide (acc > T.max / 10) then (none, (acc, idx, divisor))
  else
    let acc := acc * 10
    if isNegative then
      if checked && decide (acc < T.min + d) then (none, (acc, idx, divisor))
      else (some (), (acc - d, idx + 1, if decDiv then divisor * 10 else divisor))
    else
      if checked && decide (acc > T.max - d) then (none, (acc, idx, divisor))
      else (some (), (acc + d, idx + 1, if decDiv then divisor * 10 else divisor))

/-- Run `consume` over a digit sequence, aborting (whole-parse failure,
`consume(..)?` in the source) as soon as one step fails. -/
def consumeAll (checked decDiv : Bool) (T : NumTy) (isNegative : Bool) :
    List Nat → (Int × Nat × Nat) → Option (Int × Nat × Nat)
  | [], st => some st
  | d :: ds, st =>
    match consume checked decDiv T d isNegative st with
    | (some _, st1) => consumeAll checked decDiv T isNegative ds st1
    | (none, _) => none

/-- `number.rs`, `integer_internal`: the generic integer parser, over exact
`Int` arithmetic.  With `neg = true` the first item is either `-` (setting
the negative flag) or a digit folded through `consume` with its result
ignored; then digits are taken greedily (`map_while`).  Zero consumed
digits fail; otherwise the cursor advances by the digits consumed (plus the
sign) and the result is `(acc, dec_divisor, is_negative)`. -/
def integerInternal (checked neg decDiv : Bool) (T : NumTy) :
    Parser Char σ (Int × Nat × Bool) := fun s =>
  let start : Option (Bool × (Int × Nat × Nat) × List Char) :=
    if neg then
      match s.input with
      | [] => none
      | c :: rest =>
        if c = '-' then some (true, (0, 0, 1), rest)
        else
          match toDigit c with
          | none => none
          | some d => some (false, (consume checked decDiv T d false (0, 0, 1)).2, rest)
    else some (false, (0, 0, 1), s.input)
  match start with
  | none => (none, s)
  | some (isNegative, st0, rest) =>
    match consumeAll checked decDiv T isNegative (mapWhile toDigit rest) st0 with
    | none => (none, s)
    | some (acc, idx, divisor) =>
      if idx = 0 then (none, s)
      else (some (acc, divisor, isNegative),
            { s with input := s.input.drop (idx + if isNegative then 1 else 0) })

/-- Outcome of running the numeric accumulation on the machine: an ordinary
value, an ordinary parse failure (`None` in the source), or an arithmetic
operation whose exact result left the machine range of the target type
(an overflow: panic in debug builds, wrapped value in release builds). -/
inductive IntRunRes (β : Type u) : Type u
  | ok (b : β)
  | parseFail
  | overflow
  deriving Repr, DecidableEq

/-- Machine-instrumented variant of `consume`: identical control flow, but
each arithmetic operation on the accumulator (`acc * ten`, `acc - digit`,
`acc + digit`) additionally reports `overflow` when its exact result is
outside `[T.min, T.max]`. -/
def consumeM (checked decDiv : Bool) (T : NumTy) (digit : Nat) (isNegative : Bool)
    (st : Int × Nat × Nat) : IntRunRes Unit × (Int × Nat × Nat) :=
  let (acc, idx, divisor) := st
  let d : Int := digit
  if checked && decide (acc > T.max / 10) then (.parseFail, (acc, idx, divisor))
  else if decide (acc * 10 < T.min ∨ acc * 10 > T.max) then (.overflow, (acc, idx, divisor))
  else
    let acc := acc * 10
    if isNegative then
      if checked && decide (acc < T.min + d) then (.parseFail, (acc, idx, divisor))
      else if decide (acc - d < T.min ∨ acc - d > T.max) then (.overflow, (acc, idx, divisor))
      else (.ok (), (acc - d, idx + 1, if decDiv then divisor * 10 else divisor))
    else
      if checked && decide (acc > T.max - d) then (.parseFail, (acc, idx, divisor))
      else if decide (acc + d < T.min ∨ acc + d > T.max) then (.overflow, (acc, idx, divisor))
      else (.ok (), (acc + d, idx + 1, if decDiv then divisor * 10 else divisor))

/-- Run `consumeM` over a digit sequence, propagating the first failure or
overflow. -/
def consumeAllM (checked decDiv : Bool) (T : NumTy) (isNegative : Bool) :
    List Nat → (Int × Nat × Nat) → IntRunRes (Int × Nat × Nat)
  | [], st => .ok st
  | d :: ds, st =>
    match consumeM checked decDiv T d isNegative st with
    | (.ok _, st1) => consumeAllM checked decDiv T isNegative ds st1
    | (.parseFail, _) => .parseFail
    | (.overflow, _) => .overflow

/-- Machine-instrumented variant of `integer_internal`: same structure as
`integerInternal`, with arithmetic on the accumulator instrumented by
`consumeM`.  In the leading-digit case (signed parse not starting with `-`)
the `Option` result of `consume` is ignored exactly as in the source, but a
machine overflow there would still be a panic and is propagated. -/
def integerInternalM (checked neg decDiv : Bool) (T : NumTy) (s : AnpaState Char σ) :
    IntRunRes (Int × Nat × Bool) × AnpaState Char σ :=
  let start : IntRunRes (Bool × (Int × Nat × Nat) × List Char) :=
    if neg then
      match s.input with
      | [] => .parseFail
      | c :: rest =>
        if c = '-' then .ok (true, (0, 0, 1), rest)
        else
          match toDigit c with
          | none => .parseFail
          | some d =>
            match consumeM checked decDiv T d false (0, 0, 1) with
            | (.overflow, _) => .overflow
            | (_, st1) => .ok (false, st1, rest)
    else .ok (false, (0, 0, 1), s.input)
  match start with
  | .parseFail => (.parseFail, s)
  | .overflow => (.overflow, s)
  | .ok (isNegative, st0, rest) =>
    match consumeAllM checked decDiv T isNegative (mapWhile toDigit rest) st0 with
    | .parseFail => (.parseFail, s)
    | .overflow => (.overflow, s)
    | .ok (acc, idx, divisor) =>
      if idx = 0 then (.parseFail, s)
      else ((.ok (acc, divisor, isNegative)),
            { s with input := s.input.drop (idx + if isNegative then 1 else 0) })

/-- The operations of a `number.rs` `FloatLike` target type, kept abstract:
the float claims concern branch selection and cursor positions, not
floating-point rounding. -/
structure FloatTy (φ : Type u) : Type u where
  one : φ
  minusOne : φ
  castUsize : Nat → φ
  castIsize : Int → φ
  add : φ → φ → φ
  mul : φ → φ → φ
  div : φ → φ → φ

/-- `number.rs`, `float_internal`: parse a possibly negative signed integer
(`isize`), then try `.` followed by an unsigned integer (`usize`, tracking
the decimal divisor); the final value is
`cast_isize(n) + sign * cast_usize(dec) / cast_usize(div)`, and if the
fractional branch fails, `or` falls back to `pure(cast_isize(n))`. -/
def floatInternal (checked : Bool) (F : FloatTy φ) : Parser Char σ φ :=
  bindP (integerInternal checked true false isizeT) fun r =>
    match r with
    | (n, _, isNeg) =>
      let dec := mapP
        (rightP (itemIf fun c => c = '.') (integerInternal checked false true usizeT))
        fun rr =>
          match rr with
          | (dec, divisor, _) =>
            F.add (F.castIsize n)
              (F.div (F.mul (if isNeg then F.minusOne else F.one) (F.castUsize dec.toNat))
                     (F.castUsize divisor))
      orP dec (pureP (F.castIsize n))

/-! ### The word-parallel byte search (`findbyte.rs`)

`Work = usize` is modelled at the common 64-bit word size as `Nat` reduced
modulo `2 ^ 64`; a byte buffer is a `List Nat` of values below 256 (the
`to_u8_slice` view of a `ContiguousBytes` input, with
`slice_idx_from_offset` the identity, as for `&[u8]`). -/

/-- `2 ^ usize::BITS` for the 64-bit configuration. -/
def WORK_MOD : Nat := 2 ^ 64

/-- `findbyte.rs` `LOW_BITS`: `usize::MAX / 255 = 0x0101…01`. -/
def LOW_BITS : Nat := (WORK_MOD - 1) / 255

/-- `findbyte.rs` `HIGH_BITS`: `LOW_BITS << 7 = 0x8080…80`. -/
def HIGH_BITS : Nat := (LOW_BITS <<< 7) % WORK_MOD

/-- Bitwise complement on a 64-bit word (`!x` on `usize`). -/
def wnot (a : Nat) : Nat := (WORK_MOD - 1) ^^^ a

/-- `usize::wrapping_sub` on 64-bit words. -/
def wsub (a b : Nat) : Nat := (a % WORK_MOD + (WORK_MOD - b % WORK_MOD)) % WORK_MOD

/-- The finder configurations of `findbyte.rs`: `EqByte`, `NeByte`,
`LtByte`, `GtByte` and their `OrByte` combination. -/
inductive ByteFinder : Type
  | eqB (b : Nat)
  | neB (b : Nat)
  | ltB (b : Nat)
  | gtB (b : Nat)
  | orB (a c : ByteFinder)
  deriving Repr, DecidableEq

/-- `EqByte::intermediate`: with `to_find = haystack ^ (b * LOW_BITS)`,
returns `to_find.wrapping_sub(LOW_BITS) & !to_find`. -/
def eqIntermediate (b haystack : Nat) : Nat :=
  let toFind := haystack ^^^ b * LOW_BITS % WORK_MOD
  wsub toFind LOW_BITS &&& wnot toFind

/-- `ByteFinder::intermediate` for each finder: `NeByte` toggles the high
bits of `EqByte`, `LtByte` is `haystack.wrapping_sub(LOW_BITS * b) &
!haystack`, `GtByte` is `mask.wrapping_sub(haystack) & !mask` for
`mask = LOW_BITS * b`, and `OrByte` is the bitwise or of its parts. -/
def intermediate : ByteFinder → Nat → Nat
  | .eqB b, haystack => eqIntermediate b haystack
  | .neB b, haystack => eqIntermediate b haystack ^^^ HIGH_BITS
  | .ltB b, haystack => wsub haystack (LOW_BITS * b % WORK_MOD) &&& wnot haystack
  | .gtB b, haystack =>
    let mask := LOW_BITS * b % WORK_MOD
    wsub mask haystack &&& wnot mask
  | .orB a c, haystack => intermediate a haystack ||| intermediate c haystack

/-- `ByteFinder::slow_cmp` for each finder: the scalar comparison used on
the remainder that does not fill a word. -/
def slowCmp : ByteFinder → Nat → Bool
  | .eqB b, other => other == b
  | .neB b, other => other != b
  | .ltB b, other => decide (other < b)
  | .gtB b, other => decide (other > b)
  | .orB a c, other => slowCmp a other || slowCmp c other

/-- `usize::from_le_bytes` on one 8-byte chunk (little-endian). -/
def fromLeBytes (chunk : List Nat) : Nat := chunk.foldr (fun b acc => acc * 256 + b) 0

/-- Helper for `trailingZeros`, recursing on a width budget. -/
def tzAux : Nat → Nat → Nat
  | 0, _ => 0
  | width + 1, n => if n % 2 = 1 then 0 else 1 + tzAux width (n / 2)

/-- `usize::trailing_zeros` on a 64-bit word (`64` for zero). -/
def trailingZeros (n : Nat) : Nat := tzAux 64 n

/-- The `chunks_exact(CHUNK_SIZE)` loop of `findbyte.rs` `get_byte_pos`:
process `count` 8-byte chunks (the source iterates over
`bytes.chunks_exact(8)`, i.e. `length / 8` chunks); for each, load
little-endian, mask the combined intermediate with `HIGH_BITS`, and on a
nonzero mask stop with position `pos + trailing_zeros / 8`.  Returns either
the found position, or the unscanned remainder with the accumulated
position. -/
def chunkScan (finder : ByteFinder) : Nat → List Nat → Nat → Option Nat × (List Nat × Nat)
  | 0, bytes, pos => (none, (bytes, pos))
  | count + 1, bytes, pos =>
    let val := fromLeBytes (bytes.take 8)
    let present := intermediate finder val &&& HIGH_BITS
    if present ≠ 0 then (some (pos + trailingZeros present / 8), (bytes, pos))
    else chunkScan finder count (bytes.drop 8) (pos + 8)

/-- `findbyte.rs`, `get_byte_pos`: scan the word-sized chunks; if none
matched, scan the remainder with the scalar `slow_cmp`; on a match, read
the byte back from the buffer and return it with its position. -/
def getBytePos (input : List Nat) (finder : ByteFinder) : Option (Nat × Nat) :=
  match chunkScan finder (input.length / 8) input 0 with
  | (some pos, _) => some (input.getD pos 0, pos)
  | (none, (rem, pos)) =>
    (rem.findIdx? fun x => slowCmp finder x).map fun i => (input.getD (pos + i) 0, pos + i)

/-- `findbyte.rs`, `find_byte`: on a found position, succeed with the byte
and advance the cursor past the position (plus one if `consume_result`);
otherwise fail, leaving the state untouched. -/
def findByte (finder : ByteFinder) (consumeResult : Bool) : Parser Nat σ Nat := fun s =>
  match getBytePos s.input finder with
  | none => (none, s)
  | some (res, pos) =>
    (some res, { s with input := s.input.drop (pos + if consumeResult then 1 else 0) })

/-- Modelled from the spec (§8.1), the reference side of the differential
property: a naive one-byte-at-a-time scan of the buffer with the finder's
logical predicate, returning the first matching byte and its index. -/
def naiveFindByte (input : List Nat) (finder : ByteFinder) : Option (Nat × Nat) :=
  (input.findIdx? fun x => slowCmp finder x).map fun i => (input.getD i 0, i)

/-! ### Auxiliary predicates and concrete instances used by the theorems -/

/-- A parser strictly consumes input whenever it succeeds. -/
def Consumes (p : Parser α σ β) : Prop :=
  ∀ s b s1, p s = (some b, s1) → s1.input.length < s.input.length

/-- A parser never makes the cursor longer (true of every parser built
from the engine, whose cursors are sub-slices of the input). -/
def NonExpanding (p : Parser α σ β) : Prop :=
  ∀ s, (p s).2.input.length ≤ s.input.length

/-- The separator configuration, when present, never extends the cursor. -/
def SepNonExpanding : Option (Bool × Parser α σ γ) → Prop
  | none => True
  | some (_, sp) => NonExpanding sp

/-- The `many_internal` loop never exits: for every iteration budget it is
still running. -/
def RunsForever (p : Parser α σ β) (f : ρ → β → ρ) (sep : Option (Bool × Parser α σ γ))
    (s : AnpaState α σ) (acc : ρ) : Prop :=
  ∀ fuel, manyLoop p f sep fuel s acc false false = none

/-- A `FloatTy` instance over `Int` (the abstract float operations
instantiated with exact integer arithmetic), used for concrete runs. -/
def intF : FloatTy Int := ⟨1, -1, Int.ofNat, id, (· + ·), (· * ·), (· / ·)⟩

/-- The element parser of the spec example for the `many` family: an
unsigned (`u32`) integer over text input. -/
def elemIntU32 : Parser Char Unit (Int × Nat × Bool) := integerInternal false false false u32T

/-- The separator configuration of the spec example: a comma, with
`allow_trailing = false`. -/
def commaSepNoTrailing : Option (Bool × Parser Char Unit Char) :=
  some (false, itemIf fun c => c = ',')

/-- A parser that fails after consuming three items, used to exercise the
backtracking combinators. -/
def dropThreeFail : Parser Nat Unit Unit := fun s => (none, { s with input := s.input.drop 3 })

/-- A parser that fails after consuming one item and incrementing the
caller-supplied accumulator, used to exercise accumulator persistence. -/
def mutateFail : Parser Nat Nat Unit := fun s =>
  (none, { input := s.input.drop 1, userState := s.userState + 1 })

/-- A parser that consumes exactly one item whenever the input is
nonempty, used to exercise the termination theorem. -/
def consumeOne : Parser Nat Unit Unit := fun s =>
  match s.input with
  | [] => (none, s)
  | _ :: rest => (some (), { s with input := rest })

/-- A parser succeeding iff the first item equals `x`, consuming it. -/
def takeNat (x : Nat) : Parser Nat Unit Nat := itemIf fun c => c = x

/-- A parser consuming two fixed leading items, built by sequencing. -/
def takeTwoNat (x y : Nat) : Parser Nat Unit Nat := rightP (takeNat x) (takeNat y)

/-! ### Claim theorems -/

/-- Claim C1: for every byte buffer of length 0..3·WordSize+7 and every
finder configuration, `find_byte` is claimed to return the same outcome as
a naive one-byte-at-a-time scan with the finder's scalar predicate.  The
code violates this: on the 8-byte buffer `[5,4,4,4,4,4,4,4]` with the
finder `ne(5)`, the SWAR chunk mask is zero (the `NeByte` intermediate,
`EqByte`'s intermediate XOR `HIGH_BITS`, inherits the borrow-induced
spurious high lanes of the equality formula), so `find_byte` fails, while
the naive scan finds byte `4` at index `1`. -/
theorem c1_find_byte_differs_from_naive_scan :
    getBytePos [5, 4, 4, 4, 4, 4, 4, 4] (.neB 5) = none ∧
    naiveFindByte [5, 4, 4, 4, 4, 4, 4, 4] (.neB 5) = some (4, 1) ∧
    findByte (σ := Unit) (.neB 5) true ⟨[5, 4, 4, 4, 4, 4, 4, 4], ()⟩ =
      (none, ⟨[5, 4, 4, 4, 4, 4, 4, 4], ()⟩) := by
  refine ⟨by decide, by decide, ?_⟩
  simp [findByte]
  decide

/-- Claim C3: the checked integer parsers are claimed never to overflow,
failing cleanly instead.  The code violates this for the signed negative
path: parsing `"-130"` as a checked `i8`, the accumulator `-13` passes the
only pre-multiplication guard (`acc <= MAX/10 = 12`, which has no lower
bound) and the code then computes `acc * 10 = -130 < i8::MIN` — an
arithmetic overflow (panic in debug builds, wrapped value in release
builds).  The adjacent inputs `"-129"` (signed) and `"256"` (unsigned
`u8`) are caught by the guards and fail cleanly, as the claim describes. -/
theorem c3_signed_checked_overflow_on_multiply :
    (integerInternalM (σ := Unit) true true false i8T ⟨"-130".toList, ()⟩).1 = .overflow ∧
    (integerInternalM (σ := Unit) true true false i8T ⟨"-129".toList, ()⟩).1 = .parseFail ∧
    (integerInternalM (σ := Unit) true false false u8T ⟨"256".toList, ()⟩).1 = .parseFail ∧
    (integerInternalM (σ := Unit) true false false u8T ⟨"255".toList, ()⟩).1 =
      .ok (255, 1, false) := by
  refine ⟨?_, ?_, ?_, ?_⟩ <;> decide

/-- Claim C7: `find_byte` is claimed to return, on success, the matching
byte (cursor advanced past it or pointing at it), and to fail with an
unchanged cursor when no byte matches.  The code violates the success
half: on `[200,10,0,0,0,0,0,0]` with `gt(10)`, the true match `200` at
index 0 is missed (its lane value `10 + 256 - 200 = 66` has no high bit),
but the borrow it produces makes lane 1 — the byte `10`, which is not
greater than 10 — read as a match, so `find_byte(gt(10), true)` succeeds
returning `10` with the cursor advanced past index 1. -/
theorem c7_find_byte_success_nonmatching_byte :
    findByte (σ := Unit) (.gtB 10) true ⟨[200, 10, 0, 0, 0, 0, 0, 0], ()⟩ =
      (some 10, ⟨[0, 0, 0, 0, 0, 0], ()⟩) ∧
    slowCmp (.gtB 10) 10 = false ∧
    naiveFindByte [200, 10, 0, 0, 0, 0, 0, 0] (.gtB 10) = some (200, 0) := by
  refine ⟨?_, by decide, by decide⟩
  simp [findByte]
  decide

/-- Claim C9: for every parser `p` and every parse state, `times(0, p)`
succeeds without invoking `p`, consumes nothing, and returns the empty
prefix of the input: the result is independent of `p`, the state is
returned unchanged, and the result value is `take 0` of the input. -/
theorem c9_times_zero (p : Parser α σ β) (s : AnpaState α σ) :
    timesP 0 p s = (some [], s) := by
  simp [timesP, timesGo, Nat.sub_self]

/-- Claim C5: for every pair of parsers and every input, if `p1` fails
(regardless of how much it consumed), `or(p1,p2)` runs `p2` from the state
`p1` left with the cursor restored to the original start; and if `p1`
failed after the cursor length changed, `or_no_partial(p1,p2)` fails
outright, its outcome independent of `p2` (which is never invoked), with
the cursor left where `p1` left it. -/
theorem c5_or_full_backtracking (p1 p2 : Parser α σ β) (s s1 : AnpaState α σ)
    (h : p1 s = (none, s1)) :
    orP p1 p2 s = p2 { s1 with input := s.input } ∧
    (s1.input.length ≠ s.input.length → orNoPartialP p1 p2 s = (none, s1)) := by
  constructor
  · simp [orP, h]
  · intro hne
    simp [orNoPartialP, h, hne]

/-- Witness for C5: a parser consuming three items and then failing, on the
input `[1,2,3,4,5]`: `or` tries the second alternative from the original
start (here `success`, succeeding with the full input intact), while
`or_no_partial` fails with the cursor left after the three consumed
items. -/
theorem c5_or_full_backtracking_witness :
    orP dropThreeFail successP ⟨[1, 2, 3, 4, 5], ()⟩ = (some (), ⟨[1, 2, 3, 4, 5], ()⟩) ∧
    orNoPartialP dropThreeFail successP ⟨[1, 2, 3, 4, 5], ()⟩ = (none, ⟨[4, 5], ()⟩) := by
  have h := c5_or_full_backtracking dropThreeFail successP ⟨[1, 2, 3, 4, 5], ()⟩ ⟨[4, 5], ()⟩ rfl
  exact ⟨h.1, h.2 (by decide)⟩

/-- Claim C6: `greedy_or(p1,p2)` runs both alternatives from the same
starting cursor (`p2` from the state `p1` left, with the cursor reset to
the start); when both succeed it returns the result and cursor of the one
that consumed more, ties favouring `p1`; when exactly one succeeds, its
result is returned regardless of consumed lengths. -/
theorem c6_greedy_or_choice (p1 p2 : Parser α σ β) (s s1 s2 : AnpaState α σ)
    (r1 r2 : Option β)
    (h1 : p1 s = (r1, s1)) (h2 : p2 { s1 with input := s.input } = (r2, s2)) :
    (∀ a b, r1 = some a → r2 = some b →
      greedyOr p1 p2 s =
        if s.input.length - s1.input.length ≥ s.input.length - s2.input.length then
          (some a, { s2 with input := s1.input })
        else (some b, s2)) ∧
    (∀ a, r1 = some a → r2 = none →
      greedyOr p1 p2 s = (some a, { s2 with input := s1.input })) ∧
    (∀ b, r1 = none → r2 = some b → greedyOr p1 p2 s = (some b, s2)) := by
  refine ⟨?_, ?_, ?_⟩
  · intro a b ha hb
    subst ha hb
    by_cases hc : s.input.length - s1.input.length ≥ s.input.length - s2.input.length
    · simp [greedyOr, h1, h2, hc]
    · simp [greedyOr, h1, h2, hc]
  · intro a ha hb
    subst ha hb
    simp [greedyOr, h1, h2]
  · intro b ha hb
    subst ha hb
    simp [greedyOr, h1, h2]

/-- Witness for C6: on input `[1,2,3]`, the one-item parser `take 1` and
the two-item parser `take 1 . take 2` both succeed; the two-item parser
consumed more, so its result and cursor win; against a failing second
alternative, the one-item parser wins regardless. -/
theorem c6_greedy_or_choice_witness :
    greedyOr (takeNat 1) (takeTwoNat 1 2) ⟨[1, 2, 3], ()⟩ = (some 2, ⟨[3], ()⟩) ∧
    greedyOr (takeNat 1) (takeNat 9) ⟨[1, 2, 3], ()⟩ = (some 1, ⟨[2, 3], ()⟩) := by
  constructor
  · have h := c6_greedy_or_choice (takeNat 1) (takeTwoNat 1 2) ⟨[1, 2, 3], ()⟩
      ⟨[2, 3], ()⟩ ⟨[3], ()⟩ (some 1) (some 2) (by decide) (by decide)
    have h2 := h.1 1 2 rfl rfl
    simpa using h2
  · have h := c6_greedy_or_choice (takeNat 1) (takeNat 9) ⟨[1, 2, 3], ()⟩
      ⟨[2, 3], ()⟩ ⟨[1, 2, 3], ()⟩ (some 1) none (by decide) (by decide)
    have h2 := h.2.1 1 rfl rfl
    simpa using h2

/-- Claim C8: the backtracking combinators restore only the cursor field
of the state: `peek` unconditionally returns the wrapped parser's result
with the wrapped parser's final state except for the cursor, which is
reset; `attempt` does the same on failure only; `or` runs `p2`, after a
`p1` failure, on `p1`'s final state with only the cursor reset — so any
accumulator (user state) mutations of the discarded branch remain
visible. -/
theorem c8_backtracking_keeps_accumulator (p p1 p2 : Parser α σ β) (s : AnpaState α σ) :
    peekP p s = ((p s).1, { (p s).2 with input := s.input }) ∧
    ((p s).1 = none → attemptP p s = (none, { (p s).2 with input := s.input })) ∧
    ((p1 s).1 = none → orP p1 p2 s = p2 { (p1 s).2 with input := s.input }) := by
  refine ⟨rfl, ?_, ?_⟩
  · intro h
    rcases hE : p s with ⟨r, s2⟩
    rw [hE] at h
    simp at h
    subst h
    simp [attemptP, hE]
  · intro h
    rcases hE : p1 s with ⟨r, s2⟩
    rw [hE] at h
    simp at h
    subst h
    simp [orP, hE]

/-- Witness for C8: a branch that consumes one item and increments the
accumulator before failing, run on `[7,8,9]` with accumulator `0`:
`attempt` and `peek` restore the cursor to `[7,8,9]`, but the accumulator
stays incremented to `1`; `or` hands that mutated accumulator to the
second alternative. -/
theorem c8_backtracking_keeps_accumulator_witness :
    attemptP mutateFail ⟨[7, 8, 9], 0⟩ = (none, ⟨[7, 8, 9], 1⟩) ∧
    peekP mutateFail ⟨[7, 8, 9], 0⟩ = (none, ⟨[7, 8, 9], 1⟩) ∧
    orP mutateFail mutateFail ⟨[7, 8, 9], 0⟩ = (none, ⟨[8, 9], 2⟩) := by
  have h := c8_backtracking_keeps_accumulator mutateFail mutateFail mutateFail ⟨[7, 8, 9], 0⟩
  refine ⟨?_, ?_, ?_⟩
  · rw [h.2.1 rfl]
    rfl
  · rw [h.1]
    rfl
  · rw [h.2.2 rfl]
    rfl

/-- Claim C10: whenever the signed integer part parses successfully and the
remaining input starts with `'.'` not followed by a decimal digit, the
float parser succeeds with the integer value alone (`cast_isize n`) and
the cursor is left exactly where the integer part left it, i.e. before the
`'.'`: the failed fractional branch (which consumed the `'.'`) is fully
backtracked by the internal `or`. -/
theorem c10_float_fraction_backtracked (F : FloatTy φ) (checked : Bool)
    (s s1 : AnpaState Char σ) (n : Int) (dv : Nat) (isNeg : Bool) (rest : List Char)
    (h1 : integerInternal checked true false isizeT s = (some (n, dv, isNeg), s1))
    (h2 : s1.input = '.' :: rest)
    (h3 : mapWhile toDigit rest = []) :
    floatInternal checked F s = (some (F.castIsize n), s1) := by
  simp only [floatInternal, bindP, h1]
  have hdot : itemIf (σ := σ) (fun c => c = '.') s1 = (some '.', { s1 with input := rest }) := by
    simp [itemIf, h2]
  have hint : integerInternal (σ := σ) checked false true usizeT { s1 with input := rest } =
      (none, { s1 with input := rest }) := by
    simp [integerInternal, h3, consumeAll]
  simp only [orP, mapP, rightP, hdot, hint, pureP]

/-- Witness for C10: parsing `"5.x"` with the integer-instantiated float
operations yields the integer value `5` and leaves the cursor at `".x"`,
the `'.'` unconsumed. -/
theorem c10_float_fraction_backtracked_witness :
    floatInternal (σ := Unit) false intF ⟨"5.x".toList, ()⟩ =
      (some 5, ⟨".x".toList, ()⟩) := by
  have h := c10_float_fraction_backtracked (σ := Unit) intF false ⟨"5.x".toList, ()⟩
    ⟨".x".toList, ()⟩ 5 1 false ['x'] (by decide) rfl (by decide)
  simpa [intF] using h

/-- Claim C4: with a configured separator and `allow_trailing = false`, the
`many` family fails exactly when the repetition loop stopped because a
consumed separator was not followed by another element (the loop's
`has_trailing_sep` flag is still set at exit — it is set right after each
successful separator and cleared at each new element, so it survives to
the exit only on that stop reason), or else when `allow_empty` is off and
no element was parsed.  Concretely, parsing `"1,2,3,4"` as comma-separated
unsigned integers succeeds consuming the whole input, and parsing
`"1,2,3,4,"` under the same configuration fails entirely. -/
theorem c4_trailing_separator_rule :
    (∀ {α : Type u} {σ : Type v} {β : Type w} {γ : Type x}
       (fuel : Nat) (p : Parser α σ β) (sp : Parser α σ γ) (allowEmpty : Bool)
       (s s1 : AnpaState α σ) (successes trail : Bool),
       manyLoop p (fun _ _ => ()) (some (false, sp)) fuel s () false false =
         some ((), successes, trail, s1) →
       ((manyP fuel p allowEmpty (some (false, sp)) s).1 = none ↔
         (trail = true ∨ (allowEmpty = false ∧ successes = false)))) ∧
    manyP 20 elemIntU32 false commaSepNoTrailing ⟨"1,2,3,4".toList, ()⟩ =
      (some ("1,2,3,4".toList), ⟨[], ()⟩) ∧
    (manyP 20 elemIntU32 false commaSepNoTrailing ⟨"1,2,3,4,".toList, ()⟩).1 = none := by
  refine ⟨?_, by decide, by decide⟩
  intro α σ β γ fuel p sp allowEmpty s s1 successes trail h
  simp only [manyP, h, manyOk]
  cases trail <;> cases successes <;> cases allowEmpty <;> simp

/-- Witness for C4: on `"1,2,"` the loop stops because the trailing comma
was consumed but not followed by an element, so the combinator fails even
though elements were parsed and even though, were `allow_empty` relevant,
successes exist. -/
theorem c4_trailing_separator_rule_witness :
    (manyP 20 elemIntU32 false commaSepNoTrailing ⟨"1,2,".toList, ()⟩).1 = none := by
  have h := c4_trailing_separator_rule.1 20 elemIntU32 (itemIf fun c => c = ',') false
    ⟨"1,2,".toList, ()⟩ ⟨[], ()⟩ true true (by decide)
  exact h.mpr (Or.inl rfl)

/-! ### Termination of the repetition loops under progress (C2) -/

/-- If the element parser strictly consumes on success and the separator
never extends the cursor, the `many_internal` loop exits within any fuel
exceeding the input length. -/
theorem manyLoop_isSome_of_fuel (p : Parser α σ β) (f : ρ → β → ρ)
    (sep : Option (Bool × Parser α σ γ)) (hp : Consumes p) (hsep : SepNonExpanding sep) :
    ∀ (fuel : Nat) (s : AnpaState α σ) (acc : ρ) (b1 b2 : Bool),
      s.input.length < fuel → (manyLoop p f sep fuel s acc b1 b2).isSome := by
  intro fuel
  induction fuel with
  | zero => intro s acc b1 b2 h; omega
  | succ n ih =>
    intro s acc b1 b2 h
    rcases hE : p s with ⟨r, s1⟩
    cases r with
    | none => simp [manyLoop, hE]
    | some b =>
      have hlt : s1.input.length < s.input.length := hp s b s1 hE
      cases sep with
      | none =>
        simp only [manyLoop, hE]
        exact ih s1 (f acc b) true false (by omega)
      | some pair =>
        rcases pair with ⟨allowTrailing, sp⟩
        rcases hS : sp s1 with ⟨r2, s2⟩
        have hle : s2.input.length ≤ s1.input.length := by
          have h2 := hsep s1
          rw [hS] at h2
          exact h2
        cases r2 with
        | none => simp [manyLoop, hE, hS]
        | some _ =>
          simp only [manyLoop, hE, hS]
          exact ih s2 (f acc b) true true (by omega)

/-- Under the same progress conditions, the `many_internal` loop's outcome
is the same for every fuel exceeding the input length: the loop's exit
point is determined by the parsers, not by the budget. -/
theorem manyLoop_fuel_irrel (p : Parser α σ β) (f : ρ → β → ρ)
    (sep : Option (Bool × Parser α σ γ)) (hp : Consumes p) (hsep : SepNonExpanding sep) :
    ∀ (n m : Nat) (s : AnpaState α σ) (acc : ρ) (b1 b2 : Bool),
      s.input.length < n → s.input.length < m →
      manyLoop p f sep n s acc b1 b2 = manyLoop p f sep m s acc b1 b2 := by
  intro n
  induction n with
  | zero => intro m s acc b1 b2 h hm; omega
  | succ n ih =>
    intro m s acc b1 b2 h hm
    cases m with
    | zero => omega
    | succ m =>
      rcases hE : p s with ⟨r, s1⟩
      cases r with
      | none => simp [manyLoop, hE]
      | some b =>
        have hlt : s1.input.length < s.input.length := hp s b s1 hE
        cases sep with
        | none =>
          simp only [manyLoop, hE]
          exact ih m s1 (f acc b) true false (by omega) (by omega)
        | some pair =>
          rcases pair with ⟨allowTrailing, sp⟩
          rcases hS : sp s1 with ⟨r2, s2⟩
          have hle : s2.input.length ≤ s1.input.length := by
            have h2 := hsep s1
            rw [hS] at h2
            exact h2
          cases r2 with
          | none => simp [manyLoop, hE, hS]
          | some _ =>
            simp only [manyLoop, hE, hS]
            exact ih m s2 (f acc b) true true (by omega) (by omega)

/-- If the element parser strictly consumes on success and the operator
parser never extends the cursor, the `chain` loop exits within any fuel
exceeding the input length. -/
theorem chainLoop_isSome_of_fuel (p : Parser α σ β) (op : Parser α σ (β → β → β))
    (hp : Consumes p) (hop : NonExpanding op) :
    ∀ (fuel : Nat) (res : β) (s : AnpaState α σ),
      s.input.length < fuel → (chainLoop p op fuel res s).isSome := by
  intro fuel
  induction fuel with
  | zero => intro res s h; omega
  | succ n ih =>
    intro res s h
    rcases hO : op s with ⟨rop, s1⟩
    cases rop with
    | none => simp [chainLoop, hO]
    | some opF =>
      have hle : s1.input.length ≤ s.input.length := by
        have h2 := hop s
        rw [hO] at h2
        exact h2
      rcases hP : p s1 with ⟨rp, s2⟩
      cases rp with
      | none => simp [chainLoop, hO, hP]
      | some res2 =>
        have hlt : s2.input.length < s1.input.length := hp s1 res2 s2 hP
        simp only [chainLoop, hO, hP]
        exact ih (opF res res2) s2 (by omega)

/-- Under the same progress conditions, the `chain` loop's outcome is the
same for every fuel exceeding the input length. -/
theorem chainLoop_fuel_irrel (p : Parser α σ β) (op : Parser α σ (β → β → β))
    (hp : Consumes p) (hop : NonExpanding op) :
    ∀ (n m : Nat) (res : β) (s : AnpaState α σ),
      s.input.length < n → s.input.length < m →
      chainLoop p op n res s = chainLoop p op m res s := by
  intro n
  induction n with
  | zero => intro m res s h hm; omega
  | succ n ih =>
    intro m res s h hm
    cases m with
    | zero => omega
    | succ m =>
      rcases hO : op s with ⟨rop, s1⟩
      cases rop with
      | none => simp [chainLoop, hO]
      | some opF =>
        have hle : s1.input.length ≤ s.input.length := by
          have h2 := hop s
          rw [hO] at h2
          exact h2
        rcases hP : p s1 with ⟨rp, s2⟩
        cases rp with
        | none => simp [chainLoop, hO, hP]
        | some res2 =>
          have hlt : s2.input.length < s1.input.length := hp s1 res2 s2 hP
          simp only [chainLoop, hO, hP]
          exact ih m (opF res res2) s2 (by omega) (by omega)

/-- The `many_internal` loop on the always-succeeding, never-consuming
`success` parser (no separator) never exits, whatever the flags, the
accumulator and the fuel. -/
theorem manyLoop_successP_none (f : ρ → Unit → ρ) :
    ∀ (fuel : Nat) (s : AnpaState α σ) (acc : ρ) (b1 b2 : Bool),
      manyLoop successP f (none : Option (Bool × Parser α σ γ)) fuel s acc b1 b2 = none := by
  intro fuel
  induction fuel with
  | zero => intro s acc b1 b2; rfl
  | succ n ih =>
    intro s acc b1 b2
    simp only [manyLoop, successP]
    exact ih s (f acc ()) true false

/-- Counterexample to claim C2: the claim asserts that the repetition
combinators terminate for every element parser and every input, but
`many(success(), …)` — the always-succeeding parser from `parsers.rs` that
consumes nothing — makes the `many_internal` loop run forever, here on the
empty input: for every iteration budget the loop is still running. -/
theorem c2_nonconsuming_element_loops_forever :
    RunsForever (α := Nat) (σ := Unit) (γ := Unit) successP (fun (n : Nat) _ => n)
      none ⟨[], ()⟩ 0 :=
  fun fuel => manyLoop_successP_none _ fuel _ _ _ _

/-- Claim C2 (amended): a single invocation of a parser is deterministic
by construction (parsers are functions of the state), and the repetition
loops iterate without recursion and terminate — within input-length + 1
loop iterations, with a fuel-independent outcome — for every element
parser that strictly consumes input on each success and every
separator/operator parser that never extends the input.  (The unamended
claim, termination for every element parser, fails: see the
non-consuming-`success` counterexample.) -/
theorem c2_repetition_terminates_under_progress :
    (∀ {α : Type u} {σ : Type v} {β : Type w} {γ : Type x} {ρ : Type}
       (p : Parser α σ β) (f : ρ → β → ρ) (sep : Option (Bool × Parser α σ γ)),
       Consumes p → SepNonExpanding sep →
       ∀ (s : AnpaState α σ) (acc : ρ),
         (manyLoop p f sep (s.input.length + 1) s acc false false).isSome ∧
         ∀ m, s.input.length < m →
           manyLoop p f sep m s acc false false =
             manyLoop p f sep (s.input.length + 1) s acc false false) ∧
    (∀ {α : Type u} {σ : Type v} {β : Type w}
       (p : Parser α σ β) (op : Parser α σ (β → β → β)),
       Consumes p → NonExpanding op →
       ∀ (res : β) (s : AnpaState α σ),
         (chainLoop p op (s.input.length + 1) res s).isSome ∧
         ∀ m, s.input.length < m →
           chainLoop p op m res s = chainLoop p op (s.input.length + 1) res s) := by
  constructor
  · intro α σ β γ ρ p f sep hp hsep s acc
    refine ⟨manyLoop_isSome_of_fuel p f sep hp hsep _ s acc false false (by omega), ?_⟩
    intro m hm
    exact manyLoop_fuel_irrel p f sep hp hsep m _ s acc false false hm (by omega)
  · intro α σ β p op hp hop res s
    refine ⟨chainLoop_isSome_of_fuel p op hp hop _ res s (by omega), ?_⟩
    intro m hm
    exact chainLoop_fuel_irrel p op hp hop m _ res s hm (by omega)

/-- The one-item parser used by the termination witness strictly consumes
on success. -/
theorem consumeOne_consumes : Consumes consumeOne := by
  intro s b s1 h
  cases hs : s.input with
  | nil => simp [consumeOne, hs] at h
  | cons c rest =>
    simp [consumeOne, hs] at h
    rw [← h]
    simp [hs]

/-- The pure operator parser used by the termination witness never extends
the cursor. -/
theorem pureP_nonExpanding (x : β) : NonExpanding (pureP (α := α) (σ := σ) x) := by
  intro s
  simp [pureP]

/-- Witness for C2 (amended): with a parser consuming one item per
success, the `many_internal` loop and the `chain` loop both finish on the
three-item input `[1,2,3]` within four iterations. -/
theorem c2_repetition_terminates_under_progress_witness :
    (manyLoop consumeOne (fun (n : Nat) _ => n + 1)
       (none : Option (Bool × Parser Nat Unit Unit)) 4 ⟨[1, 2, 3], ()⟩ 0 false false).isSome ∧
    (chainLoop (mapP consumeOne fun _ => (1 : Nat)) (pureP (· + ·)) 4 1 ⟨[1, 2, 3], ()⟩).isSome := by
  constructor
  · exact (c2_repetition_terminates_under_progress.1 consumeOne (fun n _ => n + 1)
      (none : Option (Bool × Parser Nat Unit Unit))
      consumeOne_consumes trivial ⟨[1, 2, 3], ()⟩ 0).1
  · refine (c2_repetition_terminates_under_progress.{0, 0, 0, 0}.2
      (mapP consumeOne fun _ => (1 : Nat))
      (pureP (· + ·)) ?_ (pureP_nonExpanding _) 1 ⟨[1, 2, 3], ()⟩).1
    intro s b s1 h
    rcases hE : consumeOne s with ⟨r, s2⟩
    rw [mapP, hE] at h
    cases r with
    | none => simp at h
    | some u =>
      simp at h
      rw [← h.2]
      exact consumeOne_consumes s u s2 hE

end Anpa
